import Mathlib

/-!
Shallow embedding of the gas-comparison diagnostic scripts
(compare_erigon_log.py, find_diff_tx.py, compare_all_gas.py,
check_delegation.py, compare_gas_block.py).

Text is modelled as `List Char`; Python dictionaries with integer keys are
modelled as association lists (`List (Nat × _)`) together with a lookup
function; the fixed regular expression
`txIndex=(\d+).*?gasUsed=(\d+)` (and its greedy `.*` variant) is modelled
character by character, following Python `re` semantics: leftmost match,
lazy or greedy choice of the middle gap, greedy digit groups, and `.` not
matching a newline.
-/

namespace GasScripts

/-! ### Text primitives -/

/-- The literal piece before the first capture group of the pattern. -/
def txLit : List Char := ['t', 'x', 'I', 'n', 'd', 'e', 'x', '=']

/-- The literal piece before the second capture group of the pattern. -/
def gasLit : List Char := ['g', 'a', 's', 'U', 's', 'e', 'd', '=']

/-- Maximal run of decimal digits at the front of a character list,
together with the remainder (the semantics of a greedy `\d+` group
whose continuation cannot force backtracking into the digits). -/
def takeDigits : List Char → List Char × List Char
  | [] => ([], [])
  | c :: cs =>
      if c.isDigit then
        let p := takeDigits cs
        (c :: p.1, p.2)
      else ([], c :: cs)

/-- Numeric value of a digit string, most significant digit first
(the semantics of Python `int` on the captured group). -/
def digitsToNat (ds : List Char) : Nat :=
  ds.foldl (fun n c => 10 * n + (c.toNat - 48)) 0

/-- `startsWithLit lit s` holds when `lit` is an initial segment of `s`. -/
def startsWithLit : List Char → List Char → Bool
  | [], _ => true
  | _ :: _, [] => false
  | p :: ps, c :: cs => p == c && startsWithLit ps cs

/-- Number of positions of `s` at which the literal `lit` occurs. -/
def countOcc (lit : List Char) : List Char → Nat
  | [] => 0
  | c :: cs => (if startsWithLit lit (c :: cs) then 1 else 0) + countOcc lit cs

/-- Split a text at newline characters (`str.splitlines` / iterating the
lines of a file; the terminating newline of each line carries no
information for the pattern, so lines are kept without it). -/
def splitLines : List Char → List (List Char)
  | [] => [[]]
  | c :: cs =>
      if c = '\n' then [] :: splitLines cs
      else
        match splitLines cs with
        | [] => [[c]]
        | l :: ls => (c :: l) :: ls

/-! ### The fixed pattern, lazy and greedy middle gap

`findGasLazy s` models resuming the engine after `txIndex=(\d+)` with the
lazy tail `.*?gasUsed=(\d+)`: the earliest position of `gasUsed=` followed
by at least one digit, not crossing a newline.  `findGasGreedy` models the
greedy tail `.*gasUsed=(\d+)`: the latest such position on the line. -/

def findGasLazy : List Char → Option (Nat × List Char)
  | [] => none
  | c :: cs =>
      if startsWithLit gasLit (c :: cs) && !((takeDigits ((c :: cs).drop 8)).1.isEmpty) then
        some (digitsToNat (takeDigits ((c :: cs).drop 8)).1, (takeDigits ((c :: cs).drop 8)).2)
      else if c = '\n' then none
      else findGasLazy cs

def findGasGreedy : List Char → Option (Nat × List Char)
  | [] => none
  | c :: cs =>
      if c = '\n' then none
      else
        match findGasGreedy cs with
        | some r => some r
        | none =>
            if startsWithLit gasLit (c :: cs) && !((takeDigits ((c :: cs).drop 8)).1.isEmpty) then
              some (digitsToNat (takeDigits ((c :: cs).drop 8)).1, (takeDigits ((c :: cs).drop 8)).2)
            else none

/-- A match of the whole pattern anchored at the head of `s`; returns the
two captured numbers and the text after the match.  `greedy` selects the
`.*` variant of the middle gap (compare_all_gas.py), otherwise `.*?`
(compare_erigon_log.py, find_diff_tx.py). -/
def matchPairAt (greedy : Bool) (s : List Char) : Option (Nat × Nat × List Char) :=
  if startsWithLit txLit s then
    let p := takeDigits (s.drop 8)
    if p.1.isEmpty then none
    else
      match (if greedy then findGasGreedy p.2 else findGasLazy p.2) with
      | some r => some (digitsToNat p.1, r.1, r.2)
      | none => none
  else none

/-- `re.search`: the pattern match at the leftmost possible start. -/
def searchPair (greedy : Bool) : List Char → Option (Nat × Nat × List Char)
  | [] => none
  | c :: cs =>
      match matchPairAt greedy (c :: cs) with
      | some r => some r
      | none => searchPair greedy cs

/-! ### The comparator

Loop shared verbatim by compare_erigon_log.py (lines 70-79) and
find_diff_tx.py (lines 133-142): for each index of the key list look up
both sides, skip unless both are present, skip zero differences, and
record the entry with the running total updated first. -/

/-- One reported row: the tuple `(i, e_gas, r_gas, diff, cumulative_diff)`
appended to `differences`. -/
structure DiffEntry where
  idx : Nat
  eGas : Int
  rGas : Int
  diff : Int
  cumul : Int
  deriving DecidableEq, Repr

/-- One iteration of the comparison loop. -/
def compareStep (eg rg : Nat → Option Int) (acc : List DiffEntry × Int) (i : Nat) :
    List DiffEntry × Int :=
  match eg i, rg i with
  | some e, some r =>
      let d := e - r
      if d ≠ 0 then (acc.1 ++ [⟨i, e, r, d, acc.2 + d⟩], acc.2 + d) else acc
  | _, _ => acc

/-- The comparison loop over a list of candidate indices. -/
def comparatorLoop (eg rg : Nat → Option Int) (keys : List Nat) : List DiffEntry × Int :=
  keys.foldl (compareStep eg rg) ([], 0)

/-- `sorted` on a list of keys (insertion sort; stable order is irrelevant
for `Nat` keys). -/
def sortNat (l : List Nat) : List Nat := l.insertionSort (fun a b => a ≤ b)

/-- Python `dict.get` on an association list built with unique keys. -/
def dictGet (m : List (Nat × Int)) (i : Nat) : Option Int :=
  m.lookup i

/-! ### Dictionaries built by repeated assignment -/

/-- Python `d[k] = v` on the item list of a dictionary: overwrite the
value if the key is present, append the item otherwise. -/
def insertDict {β : Type} (m : List (Nat × β)) (k : Nat) (v : β) : List (Nat × β) :=
  if m.any (fun p => p.1 == k) then
    m.map (fun p => if p.1 == k then (k, v) else p)
  else m ++ [(k, v)]

/-- The item list of the dictionary built by assigning the pairs in order
into an initially empty dictionary. -/
def dictOfPairs {β : Type} (ps : List (Nat × β)) : List (Nat × β) :=
  ps.foldl (fun m p => insertDict m p.1 p.2) []

/-- The lookup function of the dictionary built by assigning the pairs in
order (later assignments overwrite earlier ones). -/
def buildMap {β : Type} (ps : List (Nat × β)) : Nat → Option β :=
  ps.foldl (fun m p => fun k => if k = p.1 then some p.2 else m k) (fun _ => none)

/-! ### `re.finditer` over the whole text

After each reported match the scan resumes at the end of the match; the
fuel argument only bounds the recursion and is chosen large enough to
never run out (each match consumes at least one character). -/

def finditerAux : Nat → List Char → List (Nat × Nat)
  | 0, _ => []
  | fuel + 1, s =>
      match searchPair false s with
      | some r => (r.1, r.2.1) :: finditerAux fuel r.2.2
      | none => []

/-- All matches of the lazy pattern in the text, in order. -/
def finditerPairs (s : List Char) : List (Nat × Nat) :=
  finditerAux (s.length + 1) s

/-! ### RPC exchanges and console output -/

/-- Outcome of one HTTP JSON-RPC exchange, as seen after
`urllib.request.urlopen` + `json.loads`: either some exception was raised
(network error, timeout, malformed JSON, or a failing decode step), or a
JSON object was decoded whose `result` field is `none` (absent or null)
or carries a decoded value. -/
inductive RpcOutcome (α : Type) : Type
  | netFail : RpcOutcome α
  | ok : Option α → RpcOutcome α

/-- Messages the scripts print while fetching (progress lines and error
lines); used to state which failures are logged and which are silent. -/
inductive LogEvent : Type
  | progress (i n : Nat)
  | errorFetching (i : Nat)
  | rpcError
  deriving DecidableEq, Repr

/-! ### Decimal strings (JSON object keys) -/

/-- Digits of a positive number, most significant first, prepended to an
accumulator. -/
def goDigits : Nat → List Char → List Char
  | 0, acc => acc
  | n + 1, acc => goDigits ((n + 1) / 10) (Char.ofNat (48 + (n + 1) % 10) :: acc)
termination_by n _ => n
decreasing_by exact Nat.div_lt_self (Nat.succ_pos _) (by decide)

/-- Python `str` on a nonnegative integer (the key stringification done
by `json.dump` on an integer-keyed dictionary). -/
def natToDigits (n : Nat) : List Char :=
  if n = 0 then ['0'] else goDigits n []

/-- `json.dump(rpc_gas, f)`: every integer key becomes its decimal
string. -/
def dumpGas (m : List (Nat × Nat)) : List (List Char × Nat) :=
  m.map (fun p => (natToDigits p.1, p.2))

/-- `{int(k): v for k, v in json.load(f).items()}`: every key string is
parsed back to an integer. -/
def loadGas (j : List (List Char × Nat)) : List (Nat × Nat) :=
  j.map (fun p => (digitsToNat p.1, p.2))

end GasScripts

namespace CompareErigonLog

open GasScripts

/-- The `(txIndex, gasUsed)` pair extracted from each line of the log
file by `re.search` with the lazy pattern (first match of a line only),
in file order; non-matching lines contribute nothing. -/
def parsePairs (text : List Char) : List (Nat × Nat) :=
  (splitLines text).filterMap (fun l => (searchPair false l).map (fun r => (r.1, r.2.1)))

/-- `parse_erigon_log` of compare_erigon_log.py as a lookup function:
the dictionary filled line by line, later lines overwriting earlier
ones. -/
def parse_erigon_log (text : List Char) : Nat → Option Nat :=
  buildMap (parsePairs text)

/-- Comparison phase of `main` in compare_erigon_log.py: iterate over
`sorted(erigon_gas.keys())`. -/
def runCompare (eg rg : List (Nat × Int)) : List DiffEntry × Int :=
  comparatorLoop (dictGet eg) (dictGet rg) (sortNat (eg.map Prod.fst))

/-- What `main` of compare_erigon_log.py produces after the parsing and
cache-loading steps. -/
inductive MainOutcome : Type
  | noErigonData : MainOutcome
  | compared (erigonTotal : Int) (differences : List DiffEntry) (totalDiff : Int) : MainOutcome
  | erigonOnly (erigonTotal : Int) : MainOutcome
  deriving DecidableEq

/-- `main` of compare_erigon_log.py after loading the RPC cache `rg`:
parse the log text into `erigon_gas`, return early when that dictionary
is empty, otherwise compute the Erigon total and, when the cache is
non-empty, the comparison. -/
def mainModel (logText : List Char) (rg : List (Nat × Int)) : MainOutcome :=
  let eg : List (Nat × Int) :=
    dictOfPairs ((parsePairs logText).map (fun p => (p.1, (p.2 : Int))))
  if eg.isEmpty then .noErigonData
  else
    let erigonTotal := (eg.map Prod.snd).sum
    if !rg.isEmpty then .compared erigonTotal (runCompare eg rg).1 (runCompare eg rg).2
    else .erigonOnly erigonTotal

end CompareErigonLog

namespace FindDiffTx

open GasScripts

/-- `parse_erigon_log` of find_diff_tx.py as a lookup function: the
dictionary filled from every match of `re.finditer` over the whole text,
later matches overwriting earlier ones. -/
def parse_erigon_log (text : List Char) : Nat → Option Nat :=
  buildMap (finditerPairs text)

/-- Comparison phase of `main` in find_diff_tx.py: iterate over
`sorted(set(erigon_gas.keys()) | set(rpc_gas.keys()))`. -/
def runCompare (eg rg : List (Nat × Int)) : List DiffEntry × Int :=
  comparatorLoop (dictGet eg) (dictGet rg)
    (sortNat ((eg.map Prod.fst ++ rg.map Prod.fst).dedup))

/-- The receipt-fetching loop of `get_block_receipts` (find_diff_tx.py,
lines 37-64): each iteration is wrapped in `try: ... except: pass`, so a
failed or resultless exchange inserts nothing and logs nothing; a
progress line is printed every 50 transactions. -/
def receiptsLoop (rpc : String → RpcOutcome Nat) (n : Nat) :
    Nat → List String → List (Nat × Nat) × List LogEvent
  | _, [] => ([], [])
  | i, h :: rest =>
      let fetched : Option Nat :=
        match rpc h with
        | .netFail => none
        | .ok none => none
        | .ok (some g) => some g
      let logsHere : List LogEvent := if i % 50 = 0 then [.progress i n] else []
      let tail := receiptsLoop rpc n (i + 1) rest
      (match fetched with
       | some g => (i, g) :: tail.1
       | none => tail.1,
       logsHere ++ tail.2)

/-- `get_block_receipts` of find_diff_tx.py.  The initial
`eth_getBlockByNumber` exchange (lines 19-36) is not wrapped in any
`try`, so a network/decode failure there, or a response without a usable
`result` field (the unguarded `data["result"]["transactions"]`
subscripts), raises an exception that propagates to the caller —
modelled as `Except.error`. -/
def get_block_receipts (blockResp : RpcOutcome (List String))
    (rpc : String → RpcOutcome Nat) :
    Except Unit (List (Nat × Nat) × List LogEvent) :=
  match blockResp with
  | .netFail => .error ()
  | .ok none => .error ()
  | .ok (some txs) => .ok (receiptsLoop rpc txs.length 0 txs)

end FindDiffTx

namespace CompareAllGas

open GasScripts

/-- The per-transaction dictionary value built by `parse_erigon_output`
(compare_all_gas.py stores `{"gasUsed": gas}`). -/
structure OutReceipt where
  gasUsed : Nat
  deriving DecidableEq, Repr

/-- The `(txIndex, {"gasUsed": gas})` pair extracted from each line by
`re.search` with the greedy pattern, in file order. -/
def parsePairs (text : List Char) : List (Nat × OutReceipt) :=
  (splitLines text).filterMap
    (fun l => (searchPair true l).map (fun r => (r.1, OutReceipt.mk r.2.1)))

/-- `parse_erigon_output` of compare_all_gas.py as a lookup function. -/
def parse_erigon_output (text : List Char) : Nat → Option OutReceipt :=
  buildMap (parsePairs text)

/-- The decoded fields read out of a receipt response
(`int(result["gasUsed"], 16)` and `int(result["cumulativeGasUsed"], 16)`). -/
structure ReceiptFields where
  gasUsed : Nat
  cumulativeGas : Nat
  deriving DecidableEq, Repr

/-- One entry of the `receipts` dictionary of `get_all_receipts`. -/
structure ReceiptEntry where
  gasUsed : Nat
  cumulativeGas : Nat
  hash : String
  deriving DecidableEq, Repr

/-- The receipt-fetching loop of `get_all_receipts` (compare_all_gas.py,
lines 46-74): per-iteration `try ... except Exception as e` that prints
an error line; a resultless response inserts nothing silently; a
progress line is printed every 20 transactions. -/
def getAllReceiptsLoop (rpc : String → RpcOutcome ReceiptFields) (n : Nat) :
    Nat → List String → List (Nat × ReceiptEntry) × List LogEvent
  | _, [] => ([], [])
  | i, h :: rest =>
      let step : Option ReceiptEntry × List LogEvent :=
        match rpc h with
        | .netFail => (none, [.errorFetching i])
        | .ok none => (none, [])
        | .ok (some f) => (some ⟨f.gasUsed, f.cumulativeGas, h⟩, [])
      let logsHere : List LogEvent := if i % 20 = 0 then [.progress i n] else []
      let tail := getAllReceiptsLoop rpc n (i + 1) rest
      (match step.1 with
       | some entry => (i, entry) :: tail.1
       | none => tail.1,
       step.2 ++ logsHere ++ tail.2)

/-- `get_all_receipts` of compare_all_gas.py; as in find_diff_tx.py the
initial block exchange (lines 25-42) is unguarded and its failure
propagates to the caller. -/
def get_all_receipts (blockResp : RpcOutcome (List String))
    (rpc : String → RpcOutcome ReceiptFields) :
    Except Unit (List (Nat × ReceiptEntry) × List LogEvent) :=
  match blockResp with
  | .netFail => .error ()
  | .ok none => .error ()
  | .ok (some txs) => .ok (getAllReceiptsLoop rpc txs.length 0 txs)

/-- The no-argument mode of `main` in compare_all_gas.py (lines 94-112):
fetch all receipts, then unconditionally print
`receipts[220]["cumulativeGas"]` — a plain subscript that raises
`KeyError` when index 220 is absent — and return the fetched
dictionary. -/
def mainNoArgs (blockResp : RpcOutcome (List String))
    (rpc : String → RpcOutcome ReceiptFields) :
    Except Unit (Nat × List (Nat × ReceiptEntry)) :=
  match get_all_receipts blockResp rpc with
  | .error e => .error e
  | .ok (receipts, _) =>
      match receipts.lookup 220 with
      | some entry => .ok (entry.cumulativeGas, receipts)
      | none => .error ()

end CompareAllGas

namespace CheckDelegation

open GasScripts

/-- `rpc_call` of check_delegation.py: the whole exchange, including the
final `data.get("result")`, sits inside `try ... except Exception as e`;
an exception prints an error line and the function returns `None`; a
missing `result` field yields `None` through `dict.get`; nothing is ever
raised to the caller. -/
def rpc_call {α : Type} (resp : RpcOutcome α) : Option α × List LogEvent :=
  match resp with
  | .netFail => (none, [.rpcError])
  | .ok r => (r, [])

end CheckDelegation

namespace CompareGasBlock

open GasScripts

/-- The decoded fields of a receipt in compare_gas_block.py. -/
structure ReceiptInfo where
  gasUsed : Nat
  cumulativeGasUsed : Nat
  type : Nat
  deriving DecidableEq, Repr

/-- `get_receipt_from_rpc` of compare_gas_block.py: per-call
`try ... except Exception as e: pass` (silent), `None` on any failure or
resultless response. -/
def get_receipt_from_rpc (resp : RpcOutcome ReceiptInfo) : Option ReceiptInfo :=
  match resp with
  | .netFail => none
  | .ok none => none
  | .ok (some r) => some r

end CompareGasBlock

/-! ## Proofs -/

namespace GasScripts

/-! ### Comparator lemmas -/

theorem compareStep_shape (eg rg : Nat → Option Int) (acc : List DiffEntry × Int) (i : Nat) :
    (compareStep eg rg acc i).1 = acc.1 ∨
      ∃ x : DiffEntry, x.idx = i ∧ (eg i).isSome ∧ (rg i).isSome ∧
        (compareStep eg rg acc i).1 = acc.1 ++ [x] := by
  unfold compareStep
  cases heg : eg i with
  | none => exact Or.inl rfl
  | some ev =>
    cases hrg : rg i with
    | none => exact Or.inl rfl
    | some rv =>
      by_cases hd : ev - rv ≠ 0
      · exact Or.inr ⟨⟨i, ev, rv, ev - rv, acc.2 + (ev - rv)⟩, rfl, by simp, by simp,
          by simp [hd]⟩
      · exact Or.inl (by simp [hd])

theorem comparatorLoop_mem_aux (eg rg : Nat → Option Int) :
    ∀ (keys : List Nat) (acc : List DiffEntry × Int) (e : DiffEntry),
      e ∈ (keys.foldl (compareStep eg rg) acc).1 →
      e ∈ acc.1 ∨ ((eg e.idx).isSome ∧ (rg e.idx).isSome) := by
  intro keys
  induction keys with
  | nil => intro acc e h; exact Or.inl h
  | cons i ks ih =>
    intro acc e h
    rcases ih (compareStep eg rg acc i) e h with h1 | h1
    · rcases compareStep_shape eg rg acc i with hs | ⟨x, hx, hegi, hrgi, hs⟩
      · rw [hs] at h1; exact Or.inl h1
      · rw [hs, List.mem_append] at h1
        rcases h1 with h1 | h1
        · exact Or.inl h1
        · right
          rw [List.mem_singleton] at h1
          subst h1
          rw [hx]
          exact ⟨hegi, hrgi⟩
    · exact Or.inr h1

theorem comparatorLoop_mem (eg rg : Nat → Option Int) (keys : List Nat) (e : DiffEntry)
    (h : e ∈ (comparatorLoop eg rg keys).1) :
    (eg e.idx).isSome ∧ (rg e.idx).isSome := by
  rcases comparatorLoop_mem_aux eg rg keys ([], 0) e h with h1 | h1
  · simp at h1
  · exact h1

theorem compareStep_inv (eg rg : Nat → Option Int) (acc : List DiffEntry × Int) (i : Nat)
    (h1 : acc.2 = (acc.1.map DiffEntry.diff).sum)
    (h2 : ∀ k e, acc.1[k]? = some e →
      e.cumul = ((acc.1.take (k + 1)).map DiffEntry.diff).sum) :
    (compareStep eg rg acc i).2 = ((compareStep eg rg acc i).1.map DiffEntry.diff).sum ∧
      ∀ k e, (compareStep eg rg acc i).1[k]? = some e →
        e.cumul = (((compareStep eg rg acc i).1.take (k + 1)).map DiffEntry.diff).sum := by
  unfold compareStep
  cases heg : eg i with
  | none => exact ⟨h1, h2⟩
  | some ev =>
    cases hrg : rg i with
    | none => exact ⟨h1, h2⟩
    | some rv =>
      dsimp only
      by_cases hd : ev - rv ≠ 0
      · rw [if_pos hd]
        dsimp only
        constructor
        · simp [h1]
        · intro k e hk
          rcases Nat.lt_trichotomy k acc.1.length with hlt | hq | hgt
          · rw [List.getElem?_append, if_pos hlt] at hk
            rw [List.take_append_of_le_length (by omega)]
            exact h2 k e hk
          · subst hq
            rw [List.getElem?_concat_length] at hk
            cases hk
            rw [List.take_of_length_le (by simp)]
            simp [h1]
          · rw [List.getElem?_eq_none (by simp; omega)] at hk
            cases hk
      · rw [if_neg hd]
        exact ⟨h1, h2⟩

theorem comparatorLoop_inv_aux (eg rg : Nat → Option Int) :
    ∀ (keys : List Nat) (acc : List DiffEntry × Int),
      acc.2 = (acc.1.map DiffEntry.diff).sum →
      (∀ k e, acc.1[k]? = some e →
        e.cumul = ((acc.1.take (k + 1)).map DiffEntry.diff).sum) →
      (keys.foldl (compareStep eg rg) acc).2 =
          ((keys.foldl (compareStep eg rg) acc).1.map DiffEntry.diff).sum ∧
        ∀ k e, (keys.foldl (compareStep eg rg) acc).1[k]? = some e →
          e.cumul =
            (((keys.foldl (compareStep eg rg) acc).1.take (k + 1)).map DiffEntry.diff).sum := by
  intro keys
  induction keys with
  | nil => intro acc h1 h2; exact ⟨h1, h2⟩
  | cons i ks ih =>
    intro acc h1 h2
    rcases compareStep_inv eg rg acc i h1 h2 with ⟨h1s, h2s⟩
    exact ih (compareStep eg rg acc i) h1s h2s

theorem comparatorLoop_idx_sublist (eg rg : Nat → Option Int) :
    ∀ (keys : List Nat) (acc : List DiffEntry × Int),
      ∃ t, (keys.foldl (compareStep eg rg) acc).1.map DiffEntry.idx =
          acc.1.map DiffEntry.idx ++ t ∧ List.Sublist t keys := by
  intro keys
  induction keys with
  | nil => intro acc; exact ⟨[], by simp, List.nil_sublist _⟩
  | cons i ks ih =>
    intro acc
    rcases ih (compareStep eg rg acc i) with ⟨t, ht, hsub⟩
    rcases compareStep_shape eg rg acc i with hs | ⟨x, hx, _, _, hs⟩
    · rw [hs] at ht
      exact ⟨t, ht, hsub.cons i⟩
    · refine ⟨i :: t, ?_, hsub.cons₂ i⟩
      rw [hs] at ht
      simpa [hx] using ht

theorem sortNat_pairwise_lt {l : List Nat} (h : l.Nodup) :
    (sortNat l).Pairwise (fun a b => a < b) := by
  have hs : (sortNat l).Sorted (fun a b => a ≤ b) := List.sorted_insertionSort _ l
  have hp : List.Perm (sortNat l) l := List.perm_insertionSort _ l
  exact hs.lt_of_le (hp.symm.nodup h)

theorem comparatorLoop_idx_pairwise (eg rg : Nat → Option Int) (keys : List Nat)
    (h : keys.Pairwise (fun a b => a < b)) :
    ((comparatorLoop eg rg keys).1.map DiffEntry.idx).Pairwise (fun a b => a < b) := by
  rcases comparatorLoop_idx_sublist eg rg keys ([], 0) with ⟨t, ht, hsub⟩
  unfold comparatorLoop
  rw [ht]
  simpa using h.sublist hsub

/-! ### Decimal round trip -/

theorem digit_char_toNat {d : Nat} (h : d < 10) : (Char.ofNat (48 + d)).toNat = 48 + d := by
  interval_cases d <;> decide

theorem digitsToNat_foldl (l : List Char) :
    ∀ i : Nat, l.foldl (fun n c => 10 * n + (c.toNat - 48)) i =
      i * 10 ^ l.length + l.foldl (fun n c => 10 * n + (c.toNat - 48)) 0 := by
  induction l with
  | nil => intro i; simp
  | cons c cs ih =>
    intro i
    simp only [List.foldl_cons, List.length_cons]
    rw [ih (10 * i + (c.toNat - 48)), ih (10 * 0 + (c.toNat - 48))]
    ring

theorem digitsToNat_goDigits :
    ∀ n acc, digitsToNat (goDigits n acc) = n * 10 ^ acc.length + digitsToNat acc := by
  intro n
  induction n using Nat.strong_induction_on with
  | _ n ih =>
    intro acc
    match n with
    | 0 => simp [goDigits]
    | m + 1 =>
      rw [goDigits, ih ((m + 1) / 10) (Nat.div_lt_self (Nat.succ_pos m) (by decide))]
      have hv : (Char.ofNat (48 + (m + 1) % 10)).toNat = 48 + (m + 1) % 10 :=
        digit_char_toNat (Nat.mod_lt _ (by decide))
      unfold digitsToNat
      simp only [List.length_cons, List.foldl_cons, hv, Nat.mul_zero, Nat.zero_add,
        Nat.add_sub_cancel_left]
      rw [digitsToNat_foldl]
      have key : (m + 1) / 10 * 10 ^ (acc.length + 1) + (m + 1) % 10 * 10 ^ acc.length =
          (m + 1) * 10 ^ acc.length := by
        rw [pow_succ]
        calc (m + 1) / 10 * (10 ^ acc.length * 10) + (m + 1) % 10 * 10 ^ acc.length
            = (10 * ((m + 1) / 10) + (m + 1) % 10) * 10 ^ acc.length := by ring
          _ = (m + 1) * 10 ^ acc.length := by rw [Nat.div_add_mod]
      linarith [key]

theorem digitsToNat_natToDigits (n : Nat) : digitsToNat (natToDigits n) = n := by
  unfold natToDigits
  by_cases h : n = 0
  · subst h; decide
  · rw [if_neg h]
    rw [digitsToNat_goDigits n []]
    simp [digitsToNat]

end GasScripts

open GasScripts in
/-- Claim C1: every row reported by the comparator (in both
compare_erigon_log.py and find_diff_tx.py) is at an index on which both
dictionaries hold a value, and an index on which at least one of the two
dictionaries holds no value produces no row. -/
theorem C1_intersection_only (eg rg : List (Nat × Int)) :
    (∀ e ∈ (CompareErigonLog.runCompare eg rg).1,
        (dictGet eg e.idx).isSome ∧ (dictGet rg e.idx).isSome) ∧
    (∀ e ∈ (FindDiffTx.runCompare eg rg).1,
        (dictGet eg e.idx).isSome ∧ (dictGet rg e.idx).isSome) ∧
    ∀ i, (dictGet eg i = none ∨ dictGet rg i = none) →
      (∀ e ∈ (CompareErigonLog.runCompare eg rg).1, e.idx ≠ i) ∧
      (∀ e ∈ (FindDiffTx.runCompare eg rg).1, e.idx ≠ i) := by
  refine ⟨fun e he => comparatorLoop_mem _ _ _ e he,
    fun e he => comparatorLoop_mem _ _ _ e he, fun i hi => ⟨?_, ?_⟩⟩ <;>
    intro e he heq <;>
    rcases comparatorLoop_mem _ _ _ e he with ⟨h1, h2⟩ <;>
    rw [heq] at h1 h2 <;>
    rcases hi with hi | hi <;> simp [hi] at h1 h2

open GasScripts in
/-- Witness for C1 at a concrete pair of dictionaries: the single
reported row sits at index 1, present on both sides. -/
theorem C1_intersection_only_witness :
    (dictGet [(0, (100 : Int)), (1, 200)] 1).isSome ∧
      (dictGet [(1, (250 : Int))] 1).isSome :=
  (C1_intersection_only [(0, 100), (1, 200)] [(1, 250)]).2.1
    ⟨1, 200, 250, -50, -50⟩ (by decide)

open GasScripts in
/-- Claim C2: with every reported row the comparator records as running
total exactly the sum of the differences of the rows reported up to and
including it, and the final total is the sum of all reported
differences; the rows of both scripts are reported in strictly
increasing index order (for compare_erigon_log.py under the dictionary
invariant that keys are unique). -/
theorem C2_running_total :
    (∀ (eg rg : Nat → Option Int) (keys : List Nat),
      (comparatorLoop eg rg keys).2 =
          ((comparatorLoop eg rg keys).1.map DiffEntry.diff).sum ∧
        ∀ k e, (comparatorLoop eg rg keys).1[k]? = some e →
          e.cumul = (((comparatorLoop eg rg keys).1.take (k + 1)).map DiffEntry.diff).sum) ∧
    (∀ eg rg : List (Nat × Int),
      ((FindDiffTx.runCompare eg rg).1.map DiffEntry.idx).Pairwise (fun a b => a < b)) ∧
    ∀ eg rg : List (Nat × Int), (eg.map Prod.fst).Nodup →
      ((CompareErigonLog.runCompare eg rg).1.map DiffEntry.idx).Pairwise (fun a b => a < b) := by
  refine ⟨?_, ?_, ?_⟩
  · intro eg rg keys
    exact comparatorLoop_inv_aux eg rg keys ([], 0) (by simp) (by simp)
  · intro eg rg
    exact comparatorLoop_idx_pairwise _ _ _ (sortNat_pairwise_lt (List.nodup_dedup _))
  · intro eg rg h
    exact comparatorLoop_idx_pairwise _ _ _ (sortNat_pairwise_lt h)

open GasScripts in
/-- Witness for C2 at concrete inputs: the final total is the sum of the
reported differences, the first row carries its own difference as
running total, and a concrete nodup key list yields increasing rows. -/
theorem C2_running_total_witness :
    (comparatorLoop (dictGet [(1, 5)]) (dictGet [(1, 9)]) [1]).2 =
        ((comparatorLoop (dictGet [(1, 5)]) (dictGet [(1, 9)]) [1]).1.map DiffEntry.diff).sum ∧
      (⟨1, 5, 9, -4, -4⟩ : DiffEntry).cumul =
        (((comparatorLoop (dictGet [(1, 5)]) (dictGet [(1, 9)]) [1]).1.take 1).map
          DiffEntry.diff).sum ∧
      ((CompareErigonLog.runCompare [(3, 7), (4, 8)] [(3, 1)]).1.map
        DiffEntry.idx).Pairwise (fun a b => a < b) :=
  ⟨(C2_running_total.1 (dictGet [(1, 5)]) (dictGet [(1, 9)]) [1]).1,
    (C2_running_total.1 (dictGet [(1, 5)]) (dictGet [(1, 9)]) [1]).2 0
      ⟨1, 5, 9, -4, -4⟩ (by decide),
    C2_running_total.2.2 [(3, 7), (4, 8)] [(3, 1)] (by decide)⟩

namespace CompareAllGas

open GasScripts

theorem getAllReceiptsLoop_lookup_lt (rpc : String → RpcOutcome ReceiptFields) (n : Nat) :
    ∀ (hs : List String) (i k : Nat), k < i →
      (getAllReceiptsLoop rpc n i hs).1.lookup k = none := by
  intro hs
  induction hs with
  | nil => intro i k hk; rfl
  | cons h rest ih =>
    intro i k hk
    have hne : k ≠ i := Nat.ne_of_lt hk
    unfold getAllReceiptsLoop
    cases hr : rpc h with
    | netFail =>
      dsimp only
      exact ih (i + 1) k (Nat.lt_succ_of_lt hk)
    | ok o =>
      cases o with
      | none =>
        dsimp only
        exact ih (i + 1) k (Nat.lt_succ_of_lt hk)
      | some f =>
        dsimp only
        rw [List.lookup_cons]
        simp only [beq_false_of_ne hne]
        exact ih (i + 1) k (Nat.lt_succ_of_lt hk)

theorem getAllReceiptsLoop_lookup (rpc : String → RpcOutcome ReceiptFields) (n : Nat) :
    ∀ (hs : List String) (i j : Nat),
      (getAllReceiptsLoop rpc n i hs).1.lookup (i + j) =
        hs[j]?.bind (fun h =>
          match rpc h with
          | .ok (some f) => some ⟨f.gasUsed, f.cumulativeGas, h⟩
          | _ => none) := by
  intro hs
  induction hs with
  | nil => intro i j; simp [getAllReceiptsLoop]
  | cons h rest ih =>
    intro i j
    cases j with
    | zero =>
      unfold getAllReceiptsLoop
      cases hr : rpc h with
      | netFail =>
        dsimp only
        rw [Nat.add_zero]
        rw [getAllReceiptsLoop_lookup_lt rpc n rest (i + 1) i (Nat.lt_succ_self i)]
        simp [hr]
      | ok o =>
        cases o with
        | none =>
          dsimp only
          rw [Nat.add_zero]
          rw [getAllReceiptsLoop_lookup_lt rpc n rest (i + 1) i (Nat.lt_succ_self i)]
          simp [hr]
        | some f =>
          dsimp only
          rw [Nat.add_zero, List.lookup_cons]
          simp [hr]
    | succ jj =>
      unfold getAllReceiptsLoop
      have hkey : i + (jj + 1) = (i + 1) + jj := by omega
      cases hr : rpc h with
      | netFail =>
        dsimp only
        rw [hkey, ih (i + 1) jj, List.getElem?_cons_succ]
      | ok o =>
        cases o with
        | none =>
          dsimp only
          rw [hkey, ih (i + 1) jj, List.getElem?_cons_succ]
        | some f =>
          dsimp only
          rw [List.lookup_cons]
          have hne : i + (jj + 1) ≠ i := by omega
          simp only [beq_false_of_ne hne]
          rw [hkey, ih (i + 1) jj, List.getElem?_cons_succ]

end CompareAllGas

open GasScripts in
/-- Claim C9: in the no-argument mode of compare_all_gas.py, after a
successful block fetch the unconditional `receipts[220]` access succeeds
exactly when the block has a transaction at index 220 (at least 221
transactions) whose receipt fetch returned a usable result; in every
other case the subscript is reached outside the dictionary's domain and
the run fails. -/
theorem C9_receipts_220_precondition (txs : List String)
    (rpc : String → RpcOutcome CompareAllGas.ReceiptFields) :
    (∀ out, CompareAllGas.mainNoArgs (.ok (some txs)) rpc = .ok out →
      ∃ h f, txs[220]? = some h ∧ rpc h = .ok (some f)) ∧
    ((∃ h f, txs[220]? = some h ∧ rpc h = .ok (some f)) →
      ∃ out, CompareAllGas.mainNoArgs (.ok (some txs)) rpc = .ok out) := by
  have hlu :
      (CompareAllGas.getAllReceiptsLoop rpc txs.length 0 txs).1.lookup 220 =
        txs[220]?.bind (fun h =>
          match rpc h with
          | .ok (some f) => some ⟨f.gasUsed, f.cumulativeGas, h⟩
          | _ => none) :=
    CompareAllGas.getAllReceiptsLoop_lookup rpc txs.length txs 0 220
  constructor
  · intro out hout
    unfold CompareAllGas.mainNoArgs CompareAllGas.get_all_receipts at hout
    dsimp only at hout
    rw [hlu] at hout
    cases hg : txs[220]? with
    | none => rw [hg] at hout; simp at hout
    | some h =>
      rw [hg] at hout
      simp only [Option.some_bind] at hout
      cases hr : rpc h with
      | netFail => rw [hr] at hout; simp at hout
      | ok o =>
        cases o with
        | none => rw [hr] at hout; simp at hout
        | some f => exact ⟨h, f, rfl, hr⟩
  · rintro ⟨h, f, hg, hr⟩
    unfold CompareAllGas.mainNoArgs CompareAllGas.get_all_receipts
    dsimp only
    rw [hlu, hg]
    simp only [Option.some_bind, hr]
    exact ⟨_, rfl⟩

set_option maxRecDepth 4000 in
open GasScripts in
/-- Witness for C9: with 221 transactions all of whose receipt fetches
succeed, the `receipts[220]` access succeeds. -/
theorem C9_receipts_220_precondition_witness :
    ∃ out,
      CompareAllGas.mainNoArgs (.ok (some (List.replicate 221 "h")))
        (fun _ => .ok (some ⟨1, 2⟩)) = .ok out :=
  (C9_receipts_220_precondition (List.replicate 221 "h") (fun _ => .ok (some ⟨1, 2⟩))).2
    ⟨"h", ⟨1, 2⟩, by decide, rfl⟩

open GasScripts in
/-- Claim C7: dumping the fetched index-to-gas dictionary to JSON
(which turns the integer keys into decimal strings) and loading it back
with int-key conversion restores the original dictionary. -/
theorem C7_cache_roundtrip (m : List (Nat × Nat)) : loadGas (dumpGas m) = m := by
  induction m with
  | nil => rfl
  | cons p ps ih =>
    simp only [dumpGas, loadGas, List.map_cons] at ih ⊢
    rw [digitsToNat_natToDigits, ih]

open GasScripts in
/-- Claim C8: on the concrete mappings A = `{0:100, 1:200}` and
B = `{0:100, 1:250}` the find_diff_tx.py comparator reports exactly one
row, at index 1, with difference −50 and cumulative total −50. -/
theorem C8_concrete_example :
    FindDiffTx.runCompare [(0, 100), (1, 200)] [(0, 100), (1, 250)] =
      ([⟨1, 200, 250, -50, -50⟩], -50) := by decide

open GasScripts in
/-- Claim C10: when the parser extracts nothing from the log text,
`main` of compare_erigon_log.py takes the early `return` and produces
neither totals nor comparison rows, whatever the loaded RPC cache
holds. -/
theorem C10_empty_parse_early_return (text : List Char) (rg : List (Nat × Int))
    (h : CompareErigonLog.parsePairs text = []) :
    CompareErigonLog.mainModel text rg = CompareErigonLog.MainOutcome.noErigonData := by
  unfold CompareErigonLog.mainModel
  rw [h]
  rfl

open GasScripts in
/-- Witness for C10: a log text with no matching line, against a
non-empty RPC cache. -/
theorem C10_empty_parse_early_return_witness :
    CompareErigonLog.parsePairs "no transactions in this log".data = [] ∧
      CompareErigonLog.mainModel "no transactions in this log".data [(0, 5)] =
        CompareErigonLog.MainOutcome.noErigonData :=
  ⟨by decide, C10_empty_parse_early_return _ [(0, 5)] (by decide)⟩

open GasScripts in
/-- Counterexample to claim C4 as stated: the RPC-client functions
`get_block_receipts` (find_diff_tx.py) and `get_all_receipts`
(compare_all_gas.py) do not shield their caller from a failing initial
block exchange, nor from a block response without a `result` field — the
exception propagates to the caller instead of any sentinel being
returned. -/
theorem C4_counterexample :
    FindDiffTx.get_block_receipts RpcOutcome.netFail (fun _ => RpcOutcome.ok none) =
        Except.error () ∧
      CompareAllGas.get_all_receipts RpcOutcome.netFail (fun _ => RpcOutcome.ok none) =
        Except.error () ∧
      FindDiffTx.get_block_receipts (RpcOutcome.ok none) (fun _ => RpcOutcome.ok none) =
        Except.error () :=
  ⟨rfl, rfl, rfl⟩

open GasScripts in
/-- Claim C4 amended: `rpc_call` of check_delegation.py and the
per-receipt fetch loops return the decoded result on success and a
sentinel absence on any failure or missing `result` field, raising
nothing; the initial block exchange inside `get_block_receipts` and
`get_all_receipts`, however, is unguarded — its failure is raised to the
caller, and only after a usable block response do those two functions
return normally. -/
theorem C4_amended_rpc_error_handling :
    (∀ (α : Type) (v : α),
      (CheckDelegation.rpc_call (RpcOutcome.netFail (α := α))).1 = none ∧
        (CheckDelegation.rpc_call (RpcOutcome.ok (none : Option α))).1 = none ∧
        (CheckDelegation.rpc_call (RpcOutcome.ok (some v))).1 = some v) ∧
    (∀ (rpc : String → RpcOutcome Nat) (n i : Nat) (h : String) (hs : List String),
      (rpc h = RpcOutcome.netFail ∨ rpc h = RpcOutcome.ok none →
        (FindDiffTx.receiptsLoop rpc n i (h :: hs)).1 =
          (FindDiffTx.receiptsLoop rpc n (i + 1) hs).1) ∧
        ∀ g, rpc h = RpcOutcome.ok (some g) →
          (FindDiffTx.receiptsLoop rpc n i (h :: hs)).1 =
            (i, g) :: (FindDiffTx.receiptsLoop rpc n (i + 1) hs).1) ∧
    (∀ (rpc : String → RpcOutcome Nat) (txs : List String),
      FindDiffTx.get_block_receipts RpcOutcome.netFail rpc = Except.error () ∧
        FindDiffTx.get_block_receipts (RpcOutcome.ok none) rpc = Except.error () ∧
        FindDiffTx.get_block_receipts (RpcOutcome.ok (some txs)) rpc =
          Except.ok (FindDiffTx.receiptsLoop rpc txs.length 0 txs)) ∧
    ∀ (rpc : String → RpcOutcome CompareAllGas.ReceiptFields) (txs : List String),
      CompareAllGas.get_all_receipts RpcOutcome.netFail rpc = Except.error () ∧
        CompareAllGas.get_all_receipts (RpcOutcome.ok none) rpc = Except.error () ∧
        CompareAllGas.get_all_receipts (RpcOutcome.ok (some txs)) rpc =
          Except.ok (CompareAllGas.getAllReceiptsLoop rpc txs.length 0 txs) := by
  refine ⟨fun α v => ⟨rfl, rfl, rfl⟩, fun rpc n i h hs => ⟨?_, ?_⟩,
    fun rpc txs => ⟨rfl, rfl, rfl⟩, fun rpc txs => ⟨rfl, rfl, rfl⟩⟩
  · rintro (hr | hr) <;>
      simp only [FindDiffTx.receiptsLoop, hr]
  · intro g hg
    simp only [FindDiffTx.receiptsLoop, hg]

open GasScripts in
/-- Witness for the amended C4 at concrete inputs: a successful call
returns the decoded value, a failed per-receipt fetch is skipped, a
successful one is recorded. -/
theorem C4_amended_rpc_error_handling_witness :
    (CheckDelegation.rpc_call (RpcOutcome.ok (some (5 : Nat)))).1 = some 5 ∧
      (FindDiffTx.receiptsLoop (fun _ => RpcOutcome.netFail) 1 0 ["a"]).1 =
        (FindDiffTx.receiptsLoop (fun _ => RpcOutcome.netFail) 1 1 []).1 ∧
      (FindDiffTx.receiptsLoop (fun _ => RpcOutcome.ok (some 7)) 1 0 ["a"]).1 =
        (0, 7) :: (FindDiffTx.receiptsLoop (fun _ => RpcOutcome.ok (some 7)) 1 1 []).1 :=
  ⟨(C4_amended_rpc_error_handling.1 Nat 5).2.2,
    (C4_amended_rpc_error_handling.2.1 (fun _ => RpcOutcome.netFail) 1 0 "a" []).1
      (Or.inl rfl),
    (C4_amended_rpc_error_handling.2.1 (fun _ => RpcOutcome.ok (some 7)) 1 0 "a" []).2
      7 rfl⟩

open GasScripts in
/-- Counterexample to claim C5 as stated: in find_diff_tx.py a failed
receipt fetch is caught and the item skipped, but nothing is logged (the
bare `except: pass`) — the run below fails on its only item, yet its
console log is empty, contradicting that every caught failure logs a
message. -/
theorem C5_counterexample :
    FindDiffTx.receiptsLoop (fun _ => RpcOutcome.netFail) 2 1 ["b"] = ([], []) := rfl

open GasScripts in
/-- Claim C5 amended: every per-item failure is caught at the call site,
the failed item contributes no data, and the loop continues with the
remaining items; compare_all_gas.py logs an error line for the failed
item, while find_diff_tx.py and compare_gas_block.py swallow the failure
silently. -/
theorem C5_amended_item_failures :
    (∀ (rpc : String → RpcOutcome Nat) (n i : Nat) (h : String) (hs : List String),
      rpc h = RpcOutcome.netFail →
        FindDiffTx.receiptsLoop rpc n i (h :: hs) =
          ((FindDiffTx.receiptsLoop rpc n (i + 1) hs).1,
            (if i % 50 = 0 then [LogEvent.progress i n] else []) ++
              (FindDiffTx.receiptsLoop rpc n (i + 1) hs).2)) ∧
    (∀ (rpc : String → RpcOutcome CompareAllGas.ReceiptFields) (n i : Nat) (h : String)
        (hs : List String),
      rpc h = RpcOutcome.netFail →
        CompareAllGas.getAllReceiptsLoop rpc n i (h :: hs) =
          ((CompareAllGas.getAllReceiptsLoop rpc n (i + 1) hs).1,
            LogEvent.errorFetching i ::
              ((if i % 20 = 0 then [LogEvent.progress i n] else []) ++
                (CompareAllGas.getAllReceiptsLoop rpc n (i + 1) hs).2))) ∧
    (∀ (rpc : String → RpcOutcome CompareAllGas.ReceiptFields) (n i : Nat) (h : String)
        (hs : List String),
      rpc h = RpcOutcome.ok none →
        CompareAllGas.getAllReceiptsLoop rpc n i (h :: hs) =
          ((CompareAllGas.getAllReceiptsLoop rpc n (i + 1) hs).1,
            (if i % 20 = 0 then [LogEvent.progress i n] else []) ++
              (CompareAllGas.getAllReceiptsLoop rpc n (i + 1) hs).2)) ∧
    CompareGasBlock.get_receipt_from_rpc RpcOutcome.netFail = none ∧
    CompareGasBlock.get_receipt_from_rpc (RpcOutcome.ok none) = none := by
  refine ⟨fun rpc n i h hs hr => ?_, fun rpc n i h hs hr => ?_,
    fun rpc n i h hs hr => ?_, rfl, rfl⟩
  · simp only [FindDiffTx.receiptsLoop, hr]
  · simp only [CompareAllGas.getAllReceiptsLoop, hr]
    simp
  · simp only [CompareAllGas.getAllReceiptsLoop, hr]
    simp

open GasScripts in
/-- Witness for the amended C5 at concrete inputs: the silently skipped
failure in find_diff_tx.py and the logged failure in compare_all_gas.py. -/
theorem C5_amended_item_failures_witness :
    FindDiffTx.receiptsLoop (fun _ => RpcOutcome.netFail) 3 1 ["x"] =
        ((FindDiffTx.receiptsLoop (fun _ => RpcOutcome.netFail) 3 2 []).1,
          (if 1 % 50 = 0 then [LogEvent.progress 1 3] else []) ++
            (FindDiffTx.receiptsLoop (fun _ => RpcOutcome.netFail) 3 2 []).2) ∧
      CompareAllGas.getAllReceiptsLoop (fun _ => RpcOutcome.netFail) 3 1 ["x"] =
        ((CompareAllGas.getAllReceiptsLoop (fun _ => RpcOutcome.netFail) 3 2 []).1,
          LogEvent.errorFetching 1 ::
            ((if 1 % 20 = 0 then [LogEvent.progress 1 3] else []) ++
              (CompareAllGas.getAllReceiptsLoop (fun _ => RpcOutcome.netFail) 3 2 []).2)) :=
  ⟨C5_amended_item_failures.1 (fun _ => RpcOutcome.netFail) 3 1 "x" [] rfl,
    C5_amended_item_failures.2.1 (fun _ => RpcOutcome.netFail) 3 1 "x" [] rfl⟩

namespace GasScripts

theorem buildMap_concat {β : Type} (ps : List (Nat × β)) (p : Nat × β) (i : Nat) :
    buildMap (ps ++ [p]) i = if i = p.1 then some p.2 else buildMap ps i := by
  unfold buildMap
  rw [List.foldl_append]
  rfl

theorem buildMap_getLast {β : Type} (ps : List (Nat × β)) (i : Nat) :
    buildMap ps i = ((ps.filter (fun p => p.1 == i)).map Prod.snd).getLast? := by
  induction ps using List.reverseRecOn with
  | nil => rfl
  | append_singleton ps p ih =>
    rw [buildMap_concat, List.filter_append]
    by_cases h : p.1 = i
    · rw [if_pos h.symm]
      have hf : List.filter (fun q => q.1 == i) [p] = [p] := by simp [h]
      rw [hf, List.map_append]
      simp
    · rw [if_neg (fun hh => h hh.symm)]
      have hf : List.filter (fun q => q.1 == i) [p] = [] := by simp [h]
      rw [hf, List.append_nil]
      exact ih

theorem filterMap_drop_nonmatching {α β : Type} (f : α → Option β) :
    ∀ l : List α, (l.filter (fun a => (f a).isSome)).filterMap f = l.filterMap f := by
  intro l
  induction l with
  | nil => rfl
  | cons a l ih =>
    cases h : f a with
    | none =>
      rw [List.filter_cons, List.filterMap_cons]
      simp [h, ih]
    | some b =>
      rw [List.filter_cons]
      simp [h, List.filterMap_cons, ih]

end GasScripts

open GasScripts in
/-- Claim C3: both log parsers build a mapping in which an index that
several matches carry ends up with the gas value of the last such match
(overwrite semantics), and lines on which the pattern does not match
contribute nothing — removing them from the line list leaves the
extracted pairs unchanged. -/
theorem C3_ignore_and_last_match_wins :
    (∀ (text : List Char) (i : Nat),
      CompareErigonLog.parse_erigon_log text i =
        (((CompareErigonLog.parsePairs text).filter (fun p => p.1 == i)).map
          Prod.snd).getLast?) ∧
    (∀ (text : List Char) (i : Nat),
      FindDiffTx.parse_erigon_log text i =
        (((finditerPairs text).filter (fun p => p.1 == i)).map Prod.snd).getLast?) ∧
    ∀ ls : List (List Char),
      (ls.filter (fun l => (searchPair false l).isSome)).filterMap
          (fun l => (searchPair false l).map (fun r => (r.1, r.2.1))) =
        ls.filterMap (fun l => (searchPair false l).map (fun r => (r.1, r.2.1))) := by
  refine ⟨fun text i => buildMap_getLast _ i, fun text i => buildMap_getLast _ i, fun ls => ?_⟩
  have h := filterMap_drop_nonmatching
    (fun l => (searchPair false l).map (fun r => (r.1, r.2.1))) ls
  simpa [Option.isSome_map] using h

namespace GasScripts

/-! ### C6 groundwork: how the pattern pieces interact with a newline -/

theorem startsWithLit_length :
    ∀ lit s : List Char, startsWithLit lit s = true → lit.length ≤ s.length := by
  intro lit
  induction lit with
  | nil => intro s _; exact Nat.zero_le _
  | cons p ps ih =>
    intro s h
    cases s with
    | nil => simp [startsWithLit] at h
    | cons c cs =>
      simp only [startsWithLit, Bool.and_eq_true] at h
      simpa using ih cs h.2

theorem txLit_no_nl : ∀ c ∈ txLit, c ≠ '\n' := by decide

theorem gasLit_no_nl : ∀ c ∈ gasLit, c ≠ '\n' := by decide

theorem startsWithLit_append_nl (lit : List Char) (hlit : ∀ c ∈ lit, c ≠ '\n') :
    ∀ (u v : List Char), (∀ c ∈ u, c ≠ '\n') →
      startsWithLit lit (u ++ '\n' :: v) = startsWithLit lit u := by
  induction lit with
  | nil => intro u v _; rfl
  | cons p ps ih =>
    intro u v hu
    cases u with
    | nil =>
      have hp : p ≠ '\n' := hlit p (by simp)
      simp [startsWithLit, hp]
    | cons c cs =>
      simp only [List.cons_append, startsWithLit, List.append_eq]
      rw [ih (fun x hx => hlit x (by simp [hx])) cs v (fun x hx => hu x (by simp [hx]))]

theorem takeDigits_append_nl :
    ∀ (u v : List Char),
      takeDigits (u ++ '\n' :: v) = ((takeDigits u).1, (takeDigits u).2 ++ '\n' :: v) := by
  intro u v
  induction u with
  | nil => simp [takeDigits]
  | cons c cs ih =>
    by_cases hc : c.isDigit
    · simp [takeDigits, hc, ih]
    · simp [takeDigits, hc]

theorem takeDigits_snd_suffix : ∀ s : List Char, List.IsSuffix (takeDigits s).2 s := by
  intro s
  induction s with
  | nil => exact List.nil_suffix
  | cons c cs ih =>
    by_cases hc : c.isDigit
    · simp only [takeDigits, hc, if_pos]
      exact ih.trans (List.suffix_cons c cs)
    · simp only [takeDigits, hc, if_neg, Bool.false_eq_true, not_false_eq_true]
      exact List.suffix_rfl

end GasScripts

namespace GasScripts

theorem txLit_eq_data : txLit = "txIndex=".data := by decide

theorem gasLit_eq_data : gasLit = "gasUsed=".data := by decide

/-- The guard of the `gasUsed=(\d+)` step of the pattern, under appending
a newline and further text: the guard is unchanged, and when the literal
matches, the digit group and the remainder decompose accordingly. -/
theorem gasGuard_append_nl (u v : List Char) (hu : ∀ c ∈ u, c ≠ '\n') :
    ((startsWithLit gasLit (u ++ '\n' :: v) &&
        !((takeDigits ((u ++ '\n' :: v).drop 8)).1.isEmpty)) =
      (startsWithLit gasLit u && !((takeDigits (u.drop 8)).1.isEmpty))) ∧
    (startsWithLit gasLit u = true →
      takeDigits ((u ++ '\n' :: v).drop 8) =
        ((takeDigits (u.drop 8)).1, (takeDigits (u.drop 8)).2 ++ '\n' :: v)) := by
  have hsw : startsWithLit gasLit (u ++ '\n' :: v) = startsWithLit gasLit u :=
    startsWithLit_append_nl gasLit gasLit_no_nl u v hu
  by_cases hs : startsWithLit gasLit u = true
  · have hlen : 8 ≤ u.length := by
      have := startsWithLit_length gasLit u hs
      simpa [gasLit] using this
    have hdrop : (u ++ '\n' :: v).drop 8 = u.drop 8 ++ '\n' :: v :=
      List.drop_append_of_le_length hlen
    have htd := takeDigits_append_nl (u.drop 8) v
    constructor
    · rw [hsw, hdrop, htd]
    · intro _
      rw [hdrop, htd]
  · have hs' : startsWithLit gasLit u = false := by
      cases hval : startsWithLit gasLit u
      · rfl
      · exact absurd hval hs
    constructor
    · rw [hsw, hs']
      simp
    · intro hcon
      exact absurd hcon hs

end GasScripts

namespace GasScripts

theorem findGasLazy_append_nl :
    ∀ (u v : List Char), (∀ c ∈ u, c ≠ '\n') →
      findGasLazy (u ++ '\n' :: v) = (findGasLazy u).map (fun r => (r.1, r.2 ++ '\n' :: v)) := by
  intro u
  induction u with
  | nil => intro v _; rfl
  | cons c cs ih =>
    intro v hu
    have hc : c ≠ '\n' := hu c (by simp)
    have hcs : ∀ x ∈ cs, x ≠ '\n' := fun x hx => hu x (by simp [hx])
    rcases gasGuard_append_nl (c :: cs) v hu with ⟨hguard, htd⟩
    simp only [List.cons_append] at hguard htd
    simp only [List.cons_append, List.append_eq, findGasLazy]
    rw [hguard]
    by_cases hg : (startsWithLit gasLit (c :: cs) &&
        !((takeDigits ((c :: cs).drop 8)).1.isEmpty)) = true
    · rw [if_pos hg, if_pos hg]
      have hsw : startsWithLit gasLit (c :: cs) = true := by
        rcases Bool.and_eq_true_iff.mp hg with ⟨h1, _⟩
        exact h1
      rw [htd hsw]
      rfl
    · rw [if_neg hg, if_neg hg, if_neg hc, if_neg hc]
      exact ih v hcs

theorem findGasGreedy_append_nl :
    ∀ (u v : List Char), (∀ c ∈ u, c ≠ '\n') →
      findGasGreedy (u ++ '\n' :: v) =
        (findGasGreedy u).map (fun r => (r.1, r.2 ++ '\n' :: v)) := by
  intro u
  induction u with
  | nil => intro v _; rfl
  | cons c cs ih =>
    intro v hu
    have hc : c ≠ '\n' := hu c (by simp)
    have hcs : ∀ x ∈ cs, x ≠ '\n' := fun x hx => hu x (by simp [hx])
    rcases gasGuard_append_nl (c :: cs) v hu with ⟨hguard, htd⟩
    simp only [List.cons_append] at hguard htd
    simp only [List.cons_append, List.append_eq, findGasGreedy]
    rw [if_neg hc, if_neg hc, ih v hcs]
    cases hrec : findGasGreedy cs with
    | some r => rfl
    | none =>
      simp only [Option.map_none]
      rw [hguard]
      by_cases hg : (startsWithLit gasLit (c :: cs) &&
          !((takeDigits ((c :: cs).drop 8)).1.isEmpty)) = true
      · rw [if_pos hg, if_pos hg]
        have hsw : startsWithLit gasLit (c :: cs) = true := by
          rcases Bool.and_eq_true_iff.mp hg with ⟨h1, _⟩
          exact h1
        rw [htd hsw]
        rfl
      · rw [if_neg hg, if_neg hg]
        rfl

end GasScripts

namespace GasScripts

theorem matchPairAt_append_nl (g : Bool) (u v : List Char) (hu : ∀ c ∈ u, c ≠ '\n') :
    matchPairAt g (u ++ '\n' :: v) =
      (matchPairAt g u).map (fun r => (r.1, r.2.1, r.2.2 ++ '\n' :: v)) := by
  unfold matchPairAt
  have hsw : startsWithLit txLit (u ++ '\n' :: v) = startsWithLit txLit u :=
    startsWithLit_append_nl txLit txLit_no_nl u v hu
  by_cases hs : startsWithLit txLit u = true
  · rw [hsw, if_pos hs, if_pos hs]
    have hlen : 8 ≤ u.length := by
      have := startsWithLit_length txLit u hs
      simpa [txLit] using this
    have hdrop : (u ++ '\n' :: v).drop 8 = u.drop 8 ++ '\n' :: v :=
      List.drop_append_of_le_length hlen
    rw [hdrop, takeDigits_append_nl]
    dsimp only
    by_cases he : (takeDigits (u.drop 8)).1.isEmpty = true
    · rw [if_pos he, if_pos he]
      rfl
    · rw [if_neg he, if_neg he]
      have hr : ∀ c ∈ (takeDigits (u.drop 8)).2, c ≠ '\n' := fun c hcm =>
        hu c (List.mem_of_mem_drop ((takeDigits_snd_suffix (u.drop 8)).subset hcm))
      cases g with
      | true =>
        simp only [if_pos]
        rw [findGasGreedy_append_nl _ v hr]
        cases hfg : findGasGreedy (takeDigits (u.drop 8)).2 with
        | some r => rfl
        | none => rfl
      | false =>
        simp only [Bool.false_eq_true, if_neg, if_false]
        rw [findGasLazy_append_nl _ v hr]
        cases hfg : findGasLazy (takeDigits (u.drop 8)).2 with
        | some r => rfl
        | none => rfl
  · have hs' : startsWithLit txLit u = false := by
      cases hval : startsWithLit txLit u
      · rfl
      · exact absurd hval hs
    rw [hsw, hs']
    simp

theorem searchPair_append_nl (g : Bool) :
    ∀ (u v : List Char), (∀ c ∈ u, c ≠ '\n') →
      searchPair g (u ++ '\n' :: v) =
        match searchPair g u with
        | some r => some (r.1, r.2.1, r.2.2 ++ '\n' :: v)
        | none => searchPair g v := by
  intro u
  induction u with
  | nil => intro v _; rfl
  | cons c cs ih =>
    intro v hu
    have hcs : ∀ x ∈ cs, x ≠ '\n' := fun x hx => hu x (by simp [hx])
    simp only [List.cons_append, List.append_eq, searchPair]
    rw [show c :: (cs ++ '\n' :: v) = (c :: cs) ++ '\n' :: v from rfl,
      matchPairAt_append_nl g (c :: cs) v hu]
    cases hm : matchPairAt g (c :: cs) with
    | some r => rfl
    | none =>
      simp only [Option.map_none]
      exact ih v hcs

end GasScripts

namespace GasScripts

theorem findGasLazy_rest :
    ∀ s p, findGasLazy s = some p → List.IsSuffix p.2 s ∧ p.2.length < s.length := by
  intro s
  induction s with
  | nil => intro p h; cases h
  | cons c cs ih =>
    intro p h
    by_cases hg : (startsWithLit gasLit (c :: cs) &&
        !((takeDigits ((c :: cs).drop 8)).1.isEmpty)) = true
    · rw [findGasLazy, if_pos hg] at h
      cases h
      dsimp only
      have hsfx : List.IsSuffix (takeDigits ((c :: cs).drop 8)).2 (c :: cs) :=
        (takeDigits_snd_suffix ((c :: cs).drop 8)).trans (List.drop_suffix 8 (c :: cs))
      refine ⟨hsfx, ?_⟩
      have h1 : (takeDigits ((c :: cs).drop 8)).2.length ≤ ((c :: cs).drop 8).length :=
        (takeDigits_snd_suffix ((c :: cs).drop 8)).length_le
      have h2 : ((c :: cs).drop 8).length = (c :: cs).length - 8 := List.length_drop 8 _
      simp only [List.length_cons] at h2 ⊢
      omega
    · rw [findGasLazy, if_neg hg] at h
      by_cases hc : c = '\n'
      · rw [if_pos hc] at h; cases h
      · rw [if_neg hc] at h
        rcases ih p h with ⟨hsfx, hlen⟩
        exact ⟨hsfx.trans (List.suffix_cons c cs), by simpa using Nat.lt_succ_of_lt hlen⟩

theorem findGasGreedy_rest :
    ∀ s p, findGasGreedy s = some p → List.IsSuffix p.2 s ∧ p.2.length < s.length := by
  intro s
  induction s with
  | nil => intro p h; cases h
  | cons c cs ih =>
    intro p h
    by_cases hc : c = '\n'
    · rw [findGasGreedy, if_pos hc] at h; cases h
    · rw [findGasGreedy, if_neg hc] at h
      cases hrec : findGasGreedy cs with
      | some r =>
        rw [hrec] at h
        cases h
        rcases ih p hrec with ⟨hsfx, hlen⟩
        exact ⟨hsfx.trans (List.suffix_cons c cs), by simpa using Nat.lt_succ_of_lt hlen⟩
      | none =>
        rw [hrec] at h
        by_cases hg : (startsWithLit gasLit (c :: cs) &&
            !((takeDigits ((c :: cs).drop 8)).1.isEmpty)) = true
        · rw [if_pos hg] at h
          cases h
          dsimp only
          refine ⟨(takeDigits_snd_suffix ((c :: cs).drop 8)).trans
            (List.drop_suffix 8 (c :: cs)), ?_⟩
          have h1 : (takeDigits ((c :: cs).drop 8)).2.length ≤ ((c :: cs).drop 8).length :=
            (takeDigits_snd_suffix ((c :: cs).drop 8)).length_le
          have h2 : ((c :: cs).drop 8).length = (c :: cs).length - 8 := List.length_drop 8 _
          simp only [List.length_cons] at h2 ⊢
          omega
        · rw [if_neg hg] at h
          cases h

theorem matchPairAt_rest (g : Bool) (s : List Char) (r : Nat × Nat × List Char)
    (h : matchPairAt g s = some r) :
    startsWithLit txLit s = true ∧ List.IsSuffix r.2.2 (s.drop 8) ∧
      r.2.2.length < s.length := by
  unfold matchPairAt at h
  by_cases hs : startsWithLit txLit s = true
  · rw [if_pos hs] at h
    dsimp only at h
    by_cases he : (takeDigits (s.drop 8)).1.isEmpty = true
    · rw [if_pos he] at h; cases h
    · rw [if_neg he] at h
      refine ⟨hs, ?_⟩
      have hlen : 8 ≤ s.length := by
        have := startsWithLit_length txLit s hs
        simpa [txLit] using this
      cases g with
      | true =>
        simp only [if_pos] at h
        cases hfg : findGasGreedy (takeDigits (s.drop 8)).2 with
        | none => rw [hfg] at h; cases h
        | some p =>
          rw [hfg] at h
          cases h
          rcases findGasGreedy_rest _ p hfg with ⟨hsfx, hplen⟩
          dsimp only
          refine ⟨hsfx.trans (takeDigits_snd_suffix (s.drop 8)), ?_⟩
          have h1 : (takeDigits (s.drop 8)).2.length ≤ (s.drop 8).length :=
            (takeDigits_snd_suffix (s.drop 8)).length_le
          have h2 : (s.drop 8).length = s.length - 8 := List.length_drop 8 s
          omega
      | false =>
        simp only [Bool.false_eq_true, if_neg, if_false] at h
        cases hfg : findGasLazy (takeDigits (s.drop 8)).2 with
        | none => rw [hfg] at h; cases h
        | some p =>
          rw [hfg] at h
          cases h
          rcases findGasLazy_rest _ p hfg with ⟨hsfx, hplen⟩
          dsimp only
          refine ⟨hsfx.trans (takeDigits_snd_suffix (s.drop 8)), ?_⟩
          have h1 : (takeDigits (s.drop 8)).2.length ≤ (s.drop 8).length :=
            (takeDigits_snd_suffix (s.drop 8)).length_le
          have h2 : (s.drop 8).length = s.length - 8 := List.length_drop 8 s
          omega
  · rw [if_neg hs] at h
    cases h

theorem searchPair_rest (g : Bool) :
    ∀ (s : List Char) (r : Nat × Nat × List Char), searchPair g s = some r →
      (∃ a b, s = a ++ b ∧ matchPairAt g b = some r) ∧ r.2.2.length < s.length := by
  intro s
  induction s with
  | nil => intro r h; cases h
  | cons c cs ih =>
    intro r h
    rw [searchPair] at h
    cases hm : matchPairAt g (c :: cs) with
    | some m =>
      rw [hm] at h
      cases h
      refine ⟨⟨[], c :: cs, rfl, hm⟩, ?_⟩
      exact (matchPairAt_rest g (c :: cs) r hm).2.2
    | none =>
      rw [hm] at h
      rcases ih r h with ⟨⟨a, b, hab, hmb⟩, hlen⟩
      exact ⟨⟨c :: a, b, by rw [hab]; rfl, hmb⟩, by simpa using Nat.lt_succ_of_lt hlen⟩

end GasScripts

namespace GasScripts

theorem countOcc_append_le (lit : List Char) :
    ∀ (a b : List Char), countOcc lit b ≤ countOcc lit (a ++ b) := by
  intro a b
  induction a with
  | nil => exact Nat.le_refl _
  | cons c cs ih =>
    calc countOcc lit b ≤ countOcc lit (cs ++ b) := ih
      _ ≤ _ := by rw [List.cons_append, countOcc]; omega

theorem countOcc_suffix_le (lit : List Char) {a b : List Char} (h : List.IsSuffix b a) :
    countOcc lit b ≤ countOcc lit a := by
  rcases h with ⟨c, rfl⟩
  exact countOcc_append_le lit c b

theorem findGasLazy_none_of_zero :
    ∀ s, countOcc gasLit s = 0 → findGasLazy s = none := by
  intro s
  induction s with
  | nil => intro _; rfl
  | cons c cs ih =>
    intro h
    rw [countOcc] at h
    by_cases hs : startsWithLit gasLit (c :: cs) = true
    · rw [if_pos hs] at h; omega
    · have hs' : startsWithLit gasLit (c :: cs) = false := by
        cases hval : startsWithLit gasLit (c :: cs)
        · rfl
        · exact absurd hval hs
      rw [if_neg hs] at h
      rw [findGasLazy, hs']
      simp only [Bool.false_and, Bool.false_eq_true, if_false]
      by_cases hc : c = '\n'
      · rw [if_pos hc]
      · rw [if_neg hc]
        exact ih (by omega)

theorem findGasGreedy_none_of_zero :
    ∀ s, countOcc gasLit s = 0 → findGasGreedy s = none := by
  intro s
  induction s with
  | nil => intro _; rfl
  | cons c cs ih =>
    intro h
    rw [countOcc] at h
    by_cases hs : startsWithLit gasLit (c :: cs) = true
    · rw [if_pos hs] at h; omega
    · have hs' : startsWithLit gasLit (c :: cs) = false := by
        cases hval : startsWithLit gasLit (c :: cs)
        · rfl
        · exact absurd hval hs
      rw [if_neg hs] at h
      rw [findGasGreedy]
      by_cases hc : c = '\n'
      · rw [if_pos hc]
      · rw [if_neg hc, ih (by omega), hs']
        simp

theorem findGas_greedy_eq_lazy :
    ∀ s, countOcc gasLit s ≤ 1 → findGasGreedy s = findGasLazy s := by
  intro s
  induction s with
  | nil => intro _; rfl
  | cons c cs ih =>
    intro h
    rw [countOcc] at h
    by_cases hc : c = '\n'
    · subst hc
      have hs' : startsWithLit gasLit ('\n' :: cs) = false := rfl
      rw [findGasGreedy, if_pos rfl, findGasLazy, hs']
      simp
    · by_cases hs : startsWithLit gasLit (c :: cs) = true
      · rw [if_pos hs] at h
        have hzero : countOcc gasLit cs = 0 := by omega
        rw [findGasGreedy, if_neg hc, findGasGreedy_none_of_zero cs hzero,
          findGasLazy]
        by_cases hg : (startsWithLit gasLit (c :: cs) &&
            !((takeDigits ((c :: cs).drop 8)).1.isEmpty)) = true
        · simp only [if_pos hg]
        · simp only [if_neg hg, if_neg hc, findGasLazy_none_of_zero cs hzero]
      · rw [if_neg hs] at h
        have hs' : startsWithLit gasLit (c :: cs) = false := by
          cases hval : startsWithLit gasLit (c :: cs)
          · rfl
          · exact absurd hval hs
        rw [findGasGreedy, if_neg hc, ih (by omega), findGasLazy, hs']
        simp only [Bool.false_and, Bool.false_eq_true, if_false, if_neg hc]
        cases hfl : findGasLazy cs with
        | some r => rfl
        | none => rfl

end GasScripts

namespace GasScripts

theorem matchPairAt_greedy_eq (s : List Char) (h : countOcc gasLit s ≤ 1) :
    matchPairAt true s = matchPairAt false s := by
  unfold matchPairAt
  by_cases hs : startsWithLit txLit s = true
  · rw [if_pos hs, if_pos hs]
    dsimp only
    by_cases he : (takeDigits (s.drop 8)).1.isEmpty = true
    · rw [if_pos he, if_pos he]
    · rw [if_neg he, if_neg he]
      have hsub : countOcc gasLit (takeDigits (s.drop 8)).2 ≤ 1 :=
        le_trans (countOcc_suffix_le gasLit
          ((takeDigits_snd_suffix (s.drop 8)).trans (List.drop_suffix 8 s))) h
      rw [findGas_greedy_eq_lazy _ hsub]
      simp
  · rw [if_neg hs, if_neg hs]

theorem searchPair_greedy_eq :
    ∀ s, countOcc gasLit s ≤ 1 → searchPair true s = searchPair false s := by
  intro s
  induction s with
  | nil => intro _; rfl
  | cons c cs ih =>
    intro h
    rw [searchPair, searchPair, matchPairAt_greedy_eq (c :: cs) h]
    cases hm : matchPairAt false (c :: cs) with
    | some r => rfl
    | none =>
      have hcs : countOcc gasLit cs ≤ 1 := by
        rw [countOcc] at h
        omega
      exact ih hcs

theorem matchPairAt_none_of_tx_zero (g : Bool) (s : List Char)
    (h : countOcc txLit s = 0) : matchPairAt g s = none := by
  cases s with
  | nil => rfl
  | cons c cs =>
    rw [countOcc] at h
    have hs' : startsWithLit txLit (c :: cs) = false := by
      by_cases hv : startsWithLit txLit (c :: cs) = true
      · rw [if_pos hv] at h; omega
      · cases hval : startsWithLit txLit (c :: cs)
        · rfl
        · exact absurd hval hv
    unfold matchPairAt
    rw [hs']
    simp

theorem searchPair_none_of_tx_zero (g : Bool) :
    ∀ s, countOcc txLit s = 0 → searchPair g s = none := by
  intro s
  induction s with
  | nil => intro _; rfl
  | cons c cs ih =>
    intro h
    have hcs : countOcc txLit cs = 0 := by
      rw [countOcc] at h
      omega
    rw [searchPair, matchPairAt_none_of_tx_zero g _ h]
    exact ih hcs

theorem searchPair_count (g : Bool) (s : List Char) (r : Nat × Nat × List Char)
    (h : searchPair g s = some r) :
    countOcc txLit r.2.2 + 1 ≤ countOcc txLit s := by
  rcases searchPair_rest g s r h with ⟨⟨a, b, rfl, hmb⟩, _⟩
  rcases matchPairAt_rest g b r hmb with ⟨hsw, hsfx, _⟩
  have hb : 8 ≤ b.length := by
    have := startsWithLit_length txLit b hsw
    simpa [txLit] using this
  obtain ⟨c, cs, rfl⟩ : ∃ c cs, b = c :: cs := by
    cases b with
    | nil => simp at hb
    | cons c cs => exact ⟨c, cs, rfl⟩
  have hdropsfx : List.IsSuffix ((c :: cs).drop 8) cs := List.drop_suffix 7 cs
  have h1 : countOcc txLit ((c :: cs).drop 8) ≤ countOcc txLit cs :=
    countOcc_suffix_le txLit hdropsfx
  have h2 : countOcc txLit r.2.2 ≤ countOcc txLit ((c :: cs).drop 8) :=
    countOcc_suffix_le txLit hsfx
  have h3 : countOcc txLit (c :: cs) = 1 + countOcc txLit cs := by
    rw [countOcc, if_pos hsw]
  have h4 : countOcc txLit (c :: cs) ≤ countOcc txLit (a ++ c :: cs) :=
    countOcc_append_le txLit a (c :: cs)
  omega

end GasScripts

namespace GasScripts

theorem finditerAux_congr :
    ∀ (f1 : Nat) (s : List Char) (f2 : Nat), s.length < f1 → s.length < f2 →
      finditerAux f1 s = finditerAux f2 s := by
  intro f1
  induction f1 with
  | zero => intro s f2 h1 _; omega
  | succ f1 ih =>
    intro s f2 h1 h2
    cases f2 with
    | zero => omega
    | succ f2 =>
      rw [finditerAux, finditerAux]
      cases hsp : searchPair false s with
      | none => rfl
      | some r =>
        have hlen := (searchPair_rest false s r hsp).2
        dsimp only
        rw [ih r.2.2 f2 (by omega) (by omega)]

theorem finditerPairs_eq (s : List Char) :
    finditerPairs s =
      match searchPair false s with
      | some r => (r.1, r.2.1) :: finditerPairs r.2.2
      | none => [] := by
  unfold finditerPairs
  rw [finditerAux]
  cases hsp : searchPair false s with
  | none => rfl
  | some r =>
    have hlen := (searchPair_rest false s r hsp).2
    dsimp only
    rw [finditerAux_congr s.length r.2.2 (r.2.2.length + 1) (by omega) (by omega)]

theorem splitLines_append_nl :
    ∀ (u ws : List Char), (∀ c ∈ u, c ≠ '\n') →
      splitLines (u ++ '\n' :: ws) = u :: splitLines ws := by
  intro u
  induction u with
  | nil => intro ws _; simp [splitLines]
  | cons c cs ih =>
    intro ws hu
    have hc : c ≠ '\n' := hu c (by simp)
    have hcs : ∀ x ∈ cs, x ≠ '\n' := fun x hx => hu x (by simp [hx])
    rw [List.cons_append, splitLines, if_neg hc, ih ws hcs]

theorem splitLines_no_nl :
    ∀ s : List Char, (∀ c ∈ s, c ≠ '\n') → splitLines s = [s] := by
  intro s
  induction s with
  | nil => intro _; rfl
  | cons c cs ih =>
    intro hs
    have hc : c ≠ '\n' := hs c (by simp)
    rw [splitLines, if_neg hc, ih (fun x hx => hs x (by simp [hx]))]

theorem finditer_append_nl :
    ∀ (n : Nat) (u v : List Char), u.length ≤ n → (∀ c ∈ u, c ≠ '\n') →
      finditerPairs (u ++ '\n' :: v) = finditerPairs u ++ finditerPairs v := by
  intro n
  induction n with
  | zero =>
    intro u v hn hu
    have hu0 : u = [] := List.length_eq_zero.mp (Nat.le_zero.mp hn)
    subst hu0
    have hsp_eq : searchPair false ('\n' :: v) = searchPair false v := rfl
    rw [List.nil_append, finditerPairs_eq ('\n' :: v), hsp_eq, ← finditerPairs_eq v]
    rfl
  | succ n ih =>
    intro u v hn hu
    rw [finditerPairs_eq (u ++ '\n' :: v), searchPair_append_nl false u v hu]
    cases hsp : searchPair false u with
    | some r =>
      dsimp only
      have hsfx : List.IsSuffix r.2.2 u := by
        rcases (searchPair_rest false u r hsp).1 with ⟨a, b, rfl, hmb⟩
        rcases matchPairAt_rest false b r hmb with ⟨_, hsfxb, _⟩
        exact (hsfxb.trans (List.drop_suffix 8 b)).trans (List.suffix_append a b)
      have hlen := (searchPair_rest false u r hsp).2
      have hrnl : ∀ c ∈ r.2.2, c ≠ '\n' := fun c hcm => hu c (hsfx.subset hcm)
      rw [ih r.2.2 v (by omega) hrnl]
      rw [finditerPairs_eq u, hsp]
      rfl
    | none =>
      dsimp only
      rw [← finditerPairs_eq v, finditerPairs_eq u, hsp]
      rfl

theorem dropWhile_head_false (p : Char → Bool) :
    ∀ (l : List Char) (w : Char) (ws : List Char), l.dropWhile p = w :: ws → p w = false := by
  intro l
  induction l with
  | nil => intro w ws h; cases h
  | cons a as ih =>
    intro w ws h
    rw [List.dropWhile_cons] at h
    by_cases hpa : p a = true
    · rw [if_pos hpa] at h
      exact ih w ws h
    · rw [if_neg hpa] at h
      injection h with h1 h2
      subst h1
      cases hval : p a
      · rfl
      · exact absurd hval hpa

theorem finditer_flatten :
    ∀ (n : Nat) (s : List Char), s.length ≤ n →
      finditerPairs s = ((splitLines s).map finditerPairs).flatten := by
  intro n
  induction n with
  | zero =>
    intro s hn
    have : s = [] := List.length_eq_zero.mp (Nat.le_zero.mp hn)
    subst this
    rfl
  | succ n ih =>
    intro s hn
    set p : Char → Bool := fun c => !(c == '\n') with hp
    have hdecomp : s.takeWhile p ++ s.dropWhile p = s := List.takeWhile_append_dropWhile p s
    have htake_nl : ∀ c ∈ s.takeWhile p, c ≠ '\n' := by
      intro c hcm
      have := List.mem_takeWhile_imp hcm
      simpa [hp] using this
    cases hdw : s.dropWhile p with
    | nil =>
      have hs_nl : ∀ c ∈ s, c ≠ '\n' := by
        intro c hcm
        have := (List.dropWhile_eq_nil_iff).mp hdw c hcm
        simpa [hp] using this
      rw [splitLines_no_nl s hs_nl]
      simp
    | cons w0 ws =>
      have hw0 : w0 = '\n' := by
        have hpw0 : p w0 = false := dropWhile_head_false p s w0 ws hdw
        simpa [hp] using hpw0
      subst hw0
      have hs_eq : s = s.takeWhile p ++ '\n' :: ws := by rw [← hdw, hdecomp]
      have hslen : s.length = (s.takeWhile p).length + 1 + ws.length := by
        conv_lhs => rw [hs_eq]
        simp [List.length_append]
        omega
      have hlen : ws.length ≤ n := by omega
      rw [hs_eq, finditer_append_nl (s.takeWhile p).length (s.takeWhile p) ws
        (Nat.le_refl _) htake_nl]
      rw [splitLines_append_nl (s.takeWhile p) ws htake_nl]
      rw [List.map_cons, List.flatten_cons, ih ws hlen]

end GasScripts

namespace GasScripts

theorem finditer_single (s : List Char) (h : countOcc txLit s ≤ 1) :
    finditerPairs s =
      match searchPair false s with
      | some r => [(r.1, r.2.1)]
      | none => [] := by
  rw [finditerPairs_eq s]
  cases hsp : searchPair false s with
  | none => rfl
  | some r =>
    have hcount := searchPair_count false s r hsp
    have hzero : countOcc txLit r.2.2 = 0 := by omega
    dsimp only
    rw [finditerPairs_eq r.2.2, searchPair_none_of_tx_zero false r.2.2 hzero]

theorem flatten_map_eq_filterMap :
    ∀ ls : List (List Char), (∀ l ∈ ls, countOcc txLit l ≤ 1) →
      ((ls.map finditerPairs).flatten) =
        ls.filterMap (fun l => (searchPair false l).map (fun r => (r.1, r.2.1))) := by
  intro ls
  induction ls with
  | nil => intro _; rfl
  | cons l ls ih =>
    intro h
    rw [List.map_cons, List.flatten_cons, List.filterMap_cons,
      finditer_single l (h l (by simp)), ih (fun x hx => h x (by simp [hx]))]
    cases hsp : searchPair false l with
    | none => rfl
    | some r => rfl

theorem filterMap_greedy_eq :
    ∀ ls : List (List Char), (∀ l ∈ ls, countOcc gasLit l ≤ 1) →
      ls.filterMap (fun l =>
          (searchPair true l).map (fun r => (r.1, CompareAllGas.OutReceipt.mk r.2.1))) =
        (ls.filterMap (fun l => (searchPair false l).map (fun r => (r.1, r.2.1)))).map
          (fun p => (p.1, CompareAllGas.OutReceipt.mk p.2)) := by
  intro ls
  induction ls with
  | nil => intro _; rfl
  | cons l ls ih =>
    intro h
    rw [List.filterMap_cons, List.filterMap_cons,
      searchPair_greedy_eq l (h l (by simp)), ih (fun x hx => h x (by simp [hx]))]
    cases hsp : searchPair false l with
    | none => rfl
    | some r => rfl

theorem buildMap_map {β γ : Type} (f : β → γ) :
    ∀ (ps : List (Nat × β)) (i : Nat),
      buildMap (ps.map (fun p => (p.1, f p.2))) i = (buildMap ps i).map f := by
  intro ps
  induction ps using List.reverseRecOn with
  | nil => intro i; rfl
  | append_singleton ps p ih =>
    intro i
    rw [List.map_append]
    rw [show [p].map (fun p => (p.1, f p.2)) = [(p.1, f p.2)] from rfl]
    rw [buildMap_concat, buildMap_concat]
    by_cases h : i = p.1
    · rw [if_pos h, if_pos h]
      rfl
    · rw [if_neg h, if_neg h]
      exact ih i

theorem finditer_eq_parsePairs (text : List Char)
    (h : ∀ l ∈ splitLines text, countOcc txLit l ≤ 1) :
    finditerPairs text = CompareErigonLog.parsePairs text := by
  rw [finditer_flatten text.length text (Nat.le_refl _)]
  exact flatten_map_eq_filterMap (splitLines text) h

end GasScripts

open GasScripts in
/-- Counterexample to claim C6 as stated: on the single-line text
`txIndex=1 gasUsed=5 txIndex=2 gasUsed=6` the three parsers give three
pairwise different mappings — the per-line lazy search takes only the
first match of the line (1 maps to 5, nothing at 2), the whole-text
finditer takes both matches (1 maps to 5 and 2 maps to 6), and the
greedy per-line search backtracks to the last `gasUsed=` of the line
(1 maps to 6). -/
theorem C6_counterexample :
    CompareErigonLog.parse_erigon_log "txIndex=1 gasUsed=5 txIndex=2 gasUsed=6".data 1 =
        some 5 ∧
      CompareErigonLog.parse_erigon_log "txIndex=1 gasUsed=5 txIndex=2 gasUsed=6".data 2 =
        none ∧
      FindDiffTx.parse_erigon_log "txIndex=1 gasUsed=5 txIndex=2 gasUsed=6".data 1 =
        some 5 ∧
      FindDiffTx.parse_erigon_log "txIndex=1 gasUsed=5 txIndex=2 gasUsed=6".data 2 =
        some 6 ∧
      (CompareAllGas.parse_erigon_output "txIndex=1 gasUsed=5 txIndex=2 gasUsed=6".data
          1).map CompareAllGas.OutReceipt.gasUsed = some 6 := by
  refine ⟨?_, ?_, ?_, ?_, ?_⟩ <;> decide

open GasScripts in
/-- Claim C6 amended: on every text in which no line carries more than
one occurrence of the `txIndex=` literal nor more than one occurrence of
the `gasUsed=` literal, the three parser implementations produce the
same transaction-index-to-gas-used mapping; on texts with several
matches or several `gasUsed=` occurrences on one line they can differ
(see the counterexample). -/
theorem C6_amended_parsers_agree (text : List Char)
    (h : ∀ l ∈ splitLines text, countOcc txLit l ≤ 1 ∧ countOcc gasLit l ≤ 1) :
    (∀ i, CompareErigonLog.parse_erigon_log text i = FindDiffTx.parse_erigon_log text i) ∧
      ∀ i, FindDiffTx.parse_erigon_log text i =
        (CompareAllGas.parse_erigon_output text i).map CompareAllGas.OutReceipt.gasUsed := by
  have hA : finditerPairs text = CompareErigonLog.parsePairs text :=
    finditer_eq_parsePairs text (fun l hl => (h l hl).1)
  have hB : CompareAllGas.parsePairs text =
      (CompareErigonLog.parsePairs text).map
        (fun p => (p.1, CompareAllGas.OutReceipt.mk p.2)) :=
    filterMap_greedy_eq (splitLines text) (fun l hl => (h l hl).2)
  constructor
  · intro i
    unfold CompareErigonLog.parse_erigon_log FindDiffTx.parse_erigon_log
    rw [hA]
  · intro i
    unfold FindDiffTx.parse_erigon_log CompareAllGas.parse_erigon_output
    rw [hA, hB, buildMap_map]
    cases hb : buildMap (CompareErigonLog.parsePairs text) i with
    | none => rfl
    | some g => rfl

open GasScripts in
/-- Witness for the amended C6 on a concrete two-line log text in the
documented format. -/
theorem C6_amended_parsers_agree_witness :
    CompareErigonLog.parse_erigon_log
        "txIndex=0 txHash=0xab gasUsed=117778 ok\ntxIndex=1 gasUsed=21000".data 1 =
      FindDiffTx.parse_erigon_log
        "txIndex=0 txHash=0xab gasUsed=117778 ok\ntxIndex=1 gasUsed=21000".data 1 ∧
      FindDiffTx.parse_erigon_log
          "txIndex=0 txHash=0xab gasUsed=117778 ok\ntxIndex=1 gasUsed=21000".data 0 =
        (CompareAllGas.parse_erigon_output
            "txIndex=0 txHash=0xab gasUsed=117778 ok\ntxIndex=1 gasUsed=21000".data
            0).map CompareAllGas.OutReceipt.gasUsed :=
  ⟨(C6_amended_parsers_agree _ (by decide)).1 1,
    (C6_amended_parsers_agree _ (by decide)).2 0⟩
